import Mathlib

/-!
Verification development for the `kache` command-output cache.

The definitions below are a shallow embedding of `src/main.rs` and
`src/archivable.rs`:

* platform strings (`std::ffi::OsString`) are modelled as lists of bytes
  (`List Nat`, each intended `< 256`), as on Unix;
* `std::time::SystemTime` is modelled as the duration since the Unix epoch,
  a pair of seconds and nanoseconds (the representation that the `speedy`
  serialization library reads and writes);
* the binary record format produced by the `speedy` derive on
  `CacheEntryInfo` is modelled byte by byte (little-endian length-prefixed
  strings, a one-byte presence tag for `Option`, a two's-complement `i32`);
* the cache directory is modelled as a list of files keyed by
  (base name, extension), and every fallible filesystem operation returns
  its resulting state together with an `Except` outcome, so that effects
  performed before a failure persist, as they do for real `fs` calls;
* the streaming relay loop of `main` is modelled as a fuel-indexed
  function over an abstract child behaviour giving the result of each
  bounded pipe read and of each `try_wait` call.
-/

/-- A platform string (`std::ffi::OsString`), as its raw bytes. -/
abbrev OsStr := List Nat

/-- `std::time::SystemTime`, as the duration since the Unix epoch:
seconds (a `u64` in the serialized form) and subsecond nanoseconds
(a `u32`, in reality `< 10^9`). -/
structure KTime where
  secs : Nat
  nanos : Nat
deriving DecidableEq, Repr

/-- Strict comparison of two `SystemTime` values
(`time::SystemTime::now() < *expiry` in `CacheEntryInfo::valid`):
lexicographic on (seconds, nanoseconds). -/
def KTime.lt (a b : KTime) : Bool :=
  a.secs < b.secs || (a.secs == b.secs && a.nanos < b.nanos)

/-- The persisted record `CacheEntryInfo` from `src/main.rs`:
original command, optional expiry, exit code. -/
structure CacheEntryInfo where
  command : List OsStr
  expiry : Option KTime
  exit_code : Int
deriving DecidableEq, Repr

/-- `CacheEntryInfo::valid` from `src/main.rs`:
`self.expiry.map_or(true, |expiry| time::SystemTime::now() < *expiry)`.
The clock reading `SystemTime::now()` is the explicit parameter `now`. -/
def CacheEntryInfo.valid (info : CacheEntryInfo) (now : KTime) : Bool :=
  match info.expiry with
  | none => true
  | some expiry => KTime.lt now expiry

/-- One byte is a UTF-8 continuation byte (`0x80..=0xBF`). -/
def isCont (b : Nat) : Bool := 0x80 ≤ b && b ≤ 0xBF

/-- UTF-8 validity of a byte sequence.  `OsString::to_str` in
`src/archivable.rs` succeeds exactly on (Unix) platform strings whose bytes
are valid UTF-8, and `String::from_utf8` on the read side performs the same
check.  The cases follow the UTF-8 well-formedness table (RFC 3629). -/
def validUtf8 : List Nat → Bool
  | [] => true
  | b :: rest =>
    if b ≤ 0x7F then validUtf8 rest
    else if 0xC2 ≤ b && b ≤ 0xDF then
      match rest with
      | c1 :: r => isCont c1 && validUtf8 r
      | [] => false
    else if b == 0xE0 then
      match rest with
      | c1 :: c2 :: r => (0xA0 ≤ c1 && c1 ≤ 0xBF) && isCont c2 && validUtf8 r
      | _ => false
    else if (0xE1 ≤ b && b ≤ 0xEC) || b == 0xEE || b == 0xEF then
      match rest with
      | c1 :: c2 :: r => isCont c1 && isCont c2 && validUtf8 r
      | _ => false
    else if b == 0xED then
      match rest with
      | c1 :: c2 :: r => (0x80 ≤ c1 && c1 ≤ 0x9F) && isCont c2 && validUtf8 r
      | _ => false
    else if b == 0xF0 then
      match rest with
      | c1 :: c2 :: c3 :: r =>
        (0x90 ≤ c1 && c1 ≤ 0xBF) && isCont c2 && isCont c3 && validUtf8 r
      | _ => false
    else if 0xF1 ≤ b && b ≤ 0xF3 then
      match rest with
      | c1 :: c2 :: c3 :: r => isCont c1 && isCont c2 && isCont c3 && validUtf8 r
      | _ => false
    else if b == 0xF4 then
      match rest with
      | c1 :: c2 :: c3 :: r =>
        (0x80 ≤ c1 && c1 ≤ 0x8F) && isCont c2 && isCont c3 && validUtf8 r
      | _ => false
    else false

/-- Errors of the serialization layer: `encodingError` is the
`speedy::Error::custom("OsString is not encodable as String")` raised by
`OsString::write_to` in `src/archivable.rs`; `outOfRange` models the
failure `speedy` raises when a length does not fit the `u32` length prefix
(and, in this embedding, stands in for the machine-type bounds `u64`/`u32`/
`i32` that the Rust values satisfy by construction). -/
inductive EncErr
  | encodingError
  | outOfRange
deriving DecidableEq, Repr

/-- Little-endian 4-byte encoding of a value already known to fit `u32`. -/
def u32le (n : Nat) : List Nat :=
  [n % 256, n / 2 ^ 8 % 256, n / 2 ^ 16 % 256, n / 2 ^ 24 % 256]

/-- Little-endian 8-byte encoding of a value already known to fit `u64`. -/
def u64le (n : Nat) : List Nat :=
  [n % 256, n / 2 ^ 8 % 256, n / 2 ^ 16 % 256, n / 2 ^ 24 % 256,
   n / 2 ^ 32 % 256, n / 2 ^ 40 % 256, n / 2 ^ 48 % 256, n / 2 ^ 56 % 256]

/-- `speedy`'s length prefix: a `u32`, failing on lengths that do not fit. -/
def writeLength (n : Nat) : Except EncErr (List Nat) :=
  if n < 2 ^ 32 then .ok (u32le n) else .error .outOfRange

/-- `OsString::write_to` from `src/archivable.rs`: `to_str()` must succeed
(the bytes are valid UTF-8), then the string is written as its `u32` length
prefix followed by its UTF-8 bytes. -/
def writeOsStr (s : OsStr) : Except EncErr (List Nat) :=
  if validUtf8 s then
    match writeLength s.length with
    | .ok pre => .ok (pre ++ s)
    | .error e => .error e
  else .error .encodingError

/-- The elements of `Vec<archivable::OsString>`, written in order; the
first failing element aborts the write. -/
def writeOsStrs : List OsStr → Except EncErr (List Nat)
  | [] => .ok []
  | s :: rest =>
    match writeOsStr s with
    | .error e => .error e
    | .ok b =>
      match writeOsStrs rest with
      | .error e => .error e
      | .ok bs => .ok (b ++ bs)

/-- `speedy`'s encoding of `Vec<archivable::OsString>`: `u32` element
count, then the elements in order. -/
def writeCommand (cs : List OsStr) : Except EncErr (List Nat) :=
  match writeLength cs.length with
  | .error e => .error e
  | .ok pre =>
    match writeOsStrs cs with
    | .error e => .error e
    | .ok bs => .ok (pre ++ bs)

/-- `SystemTime::write_to` from `src/archivable.rs` delegates to `speedy`'s
encoding of `std::time::SystemTime`: seconds since the epoch as a `u64`
followed by subsecond nanoseconds as a `u32`.  The range checks model the
machine types (`secs : u64`, `nanos : u32`), which the real values satisfy
by construction. -/
def writeTime (t : KTime) : Except EncErr (List Nat) :=
  if t.secs < 2 ^ 64 ∧ t.nanos < 2 ^ 32 then .ok (u64le t.secs ++ u32le t.nanos)
  else .error .outOfRange

/-- `speedy`'s encoding of `Option`: one tag byte (0 for `None`, 1 for
`Some`) followed by the payload if present. -/
def writeOptTime : Option KTime → Except EncErr (List Nat)
  | none => .ok [0]
  | some t =>
    match writeTime t with
    | .error e => .error e
    | .ok bs => .ok (1 :: bs)

/-- `speedy`'s encoding of `i32`: 4 bytes, little-endian two's complement.
The range check models the `i32` machine type, satisfied by construction. -/
def writeI32 (e : Int) : Except EncErr (List Nat) :=
  if -2 ^ 31 ≤ e ∧ e < 2 ^ 31 then .ok (u32le (e % 2 ^ 32).toNat)
  else .error .outOfRange

/-- The full binary record written by the `speedy` derive on
`CacheEntryInfo` (fields in declaration order: `command`, `expiry`,
`exit_code`). -/
def encodeInfo (info : CacheEntryInfo) : Except EncErr (List Nat) :=
  match writeCommand info.command with
  | .error e => .error e
  | .ok c =>
    match writeOptTime info.expiry with
    | .error e => .error e
    | .ok t =>
      match writeI32 info.exit_code with
      | .error e => .error e
      | .ok x => .ok (c ++ t ++ x)

/-- Read 4 bytes as a little-endian `u32`; fails on short input. -/
def readU32 : List Nat → Option (Nat × List Nat)
  | b0 :: b1 :: b2 :: b3 :: rest =>
    some (b0 + 2 ^ 8 * b1 + 2 ^ 16 * b2 + 2 ^ 24 * b3, rest)
  | _ => none

/-- Read 8 bytes as a little-endian `u64`; fails on short input. -/
def readU64 : List Nat → Option (Nat × List Nat)
  | b0 :: b1 :: b2 :: b3 :: b4 :: b5 :: b6 :: b7 :: rest =>
    some (b0 + 2 ^ 8 * b1 + 2 ^ 16 * b2 + 2 ^ 24 * b3 + 2 ^ 32 * b4
      + 2 ^ 40 * b5 + 2 ^ 48 * b6 + 2 ^ 56 * b7, rest)
  | _ => none

/-- Read exactly `n` raw bytes; fails on short input. -/
def readBytes (n : Nat) (bs : List Nat) : Option (List Nat × List Nat) :=
  if n ≤ bs.length then some (bs.take n, bs.drop n) else none

/-- `OsString::read_from` from `src/archivable.rs`: read a `String`
(`u32` length prefix, then that many bytes, which must be valid UTF-8)
and wrap it. -/
def readOsStr (bs : List Nat) : Option (OsStr × List Nat) :=
  match readU32 bs with
  | none => none
  | some (len, rest) =>
    match readBytes len rest with
    | none => none
    | some (s, rest1) => if validUtf8 s then some (s, rest1) else none

/-- Read `n` consecutive strings (the elements of the command vector). -/
def readOsStrs : Nat → List Nat → Option (List OsStr × List Nat)
  | 0, bs => some ([], bs)
  | n + 1, bs =>
    match readOsStr bs with
    | none => none
    | some (s, rest) =>
      match readOsStrs n rest with
      | none => none
      | some (ss, rest1) => some (s :: ss, rest1)

/-- `speedy`'s decoding of `Vec<archivable::OsString>`. -/
def readCommand (bs : List Nat) : Option (List OsStr × List Nat) :=
  match readU32 bs with
  | none => none
  | some (n, rest) => readOsStrs n rest

/-- `SystemTime::read_from` from `src/archivable.rs`: `u64` seconds then
`u32` nanoseconds since the epoch. -/
def readTime (bs : List Nat) : Option (KTime × List Nat) :=
  match readU64 bs with
  | none => none
  | some (secs, rest) =>
    match readU32 rest with
    | none => none
    | some (nanos, rest1) => some (⟨secs, nanos⟩, rest1)

/-- `speedy`'s decoding of `Option<SystemTime>`: tag byte 0 is `None`,
tag byte 1 is `Some`, anything else is a decode error. -/
def readOptTime : List Nat → Option (Option KTime × List Nat)
  | 0 :: rest => some (none, rest)
  | 1 :: rest =>
    match readTime rest with
    | none => none
    | some (t, rest1) => some (some t, rest1)
  | _ => none

/-- `speedy`'s decoding of `i32`: 4 little-endian bytes, reinterpreted as
two's complement. -/
def readI32 (bs : List Nat) : Option (Int × List Nat) :=
  match readU32 bs with
  | none => none
  | some (n, rest) =>
    some (if n < 2 ^ 31 then (n : Int) else (n : Int) - 2 ^ 32, rest)

/-- Parse a `CacheEntryInfo` record off the front of a byte stream
(the `speedy` derive reads the fields in declaration order). -/
def parseInfo (bs : List Nat) : Option (CacheEntryInfo × List Nat) :=
  match readCommand bs with
  | none => none
  | some (cmd, rest) =>
    match readOptTime rest with
    | none => none
    | some (exp, rest1) =>
      match readI32 rest1 with
      | none => none
      | some (x, rest2) => some (⟨cmd, exp, x⟩, rest2)

/-- `CacheEntryInfo::read_from_stream_unbuffered`: decode a record from the
info file's bytes (trailing bytes, if any, are not an error). -/
def decodeInfo (bs : List Nat) : Option CacheEntryInfo :=
  (parseInfo bs).map (fun p => p.1)

/-- Truncation to 64 bits (`u64` wrapping arithmetic). -/
def wrap64 (n : Nat) : Nat := n % 2 ^ 64

/-- 64-bit left rotation of a value `< 2^64`.  The two pieces occupy
disjoint bit ranges, so addition implements their bitwise-or. -/
def rotl64 (x r : Nat) : Nat := x * 2 ^ r % 2 ^ 64 + x / 2 ^ (64 - r)

/-- The four 64-bit state words of a SipHash computation. -/
structure SipState where
  v0 : Nat
  v1 : Nat
  v2 : Nat
  v3 : Nat
deriving DecidableEq, Repr

/-- One SIPROUND, as in the SipHash reference (and Rust's `DefaultHasher`,
which is SipHash-1-3). -/
def sipRound (s : SipState) : SipState :=
  let a0 := wrap64 (s.v0 + s.v1)
  let b1 := rotl64 s.v1 13
  let c1 := b1 ^^^ a0
  let a1 := rotl64 a0 32
  let a2 := wrap64 (s.v2 + s.v3)
  let b3 := rotl64 s.v3 16
  let c3 := b3 ^^^ a2
  let d0 := wrap64 (a1 + c3)
  let d3 := rotl64 c3 21
  let e3 := d3 ^^^ d0
  let d2 := wrap64 (a2 + c1)
  let e1 := rotl64 c1 17
  let f1 := e1 ^^^ d2
  let f2 := rotl64 d2 32
  ⟨d0, f1, f2, e3⟩

/-- Absorb one 8-byte message word: xor into `v3`, one compression round
(SipHash-1-3 uses a single round), xor into `v0`. -/
def sipCompress (s : SipState) (m : Nat) : SipState :=
  let s1 := sipRound ⟨s.v0, s.v1, s.v2, s.v3 ^^^ m⟩
  ⟨s1.v0 ^^^ m, s1.v1, s1.v2, s1.v3⟩

/-- Assemble up to 8 bytes into a little-endian word. -/
def leWord (bs : List Nat) : Nat := bs.foldr (fun b acc => b + 256 * acc) 0

/-- Process the remaining message: full 8-byte words first, then the final
word holding the leftover bytes and the total length modulo 256 in the top
byte, then the SipHash-1-3 finalization (xor `0xFF` into `v2` and three
rounds). -/
def sipGo (len : Nat) : SipState → List Nat → Nat
  | s, b0 :: b1 :: b2 :: b3 :: b4 :: b5 :: b6 :: b7 :: rest =>
    sipGo len (sipCompress s (leWord [b0, b1, b2, b3, b4, b5, b6, b7])) rest
  | s, rem =>
    let m := leWord rem + len % 256 * 2 ^ 56
    let s1 := sipCompress s m
    let s2 := sipRound (sipRound (sipRound ⟨s1.v0, s1.v1, s1.v2 ^^^ 0xFF, s1.v3⟩))
    s2.v0 ^^^ s2.v1 ^^^ s2.v2 ^^^ s2.v3

/-- SipHash-1-3 with both keys zero: `DefaultHasher::new()` in
`std::collections::hash_map`, used by `CacheEntry::new`.  The initial state
words are the SipHash constants (xored with the zero keys). -/
def sipHash13 (msg : List Nat) : Nat :=
  sipGo msg.length
    ⟨0x736f6d6570736575, 0x646f72616e646f6d, 0x6c7967656e657261, 0x7465646279746573⟩
    msg

/-- The byte stream fed to the hasher by `command.hash(&mut hasher)` for a
`Vec<OsString>` on a 64-bit little-endian Unix platform: the element count
as a `usize` (`Hasher::write_length_prefix`), then for each `OsString` its
byte length as a `usize` followed by its raw bytes (the `[u8]` hash of the
platform string's bytes).  Each element thus contributes its boundary. -/
def commandHashBytes (cmd : List OsStr) : List Nat :=
  u64le cmd.length ++ (cmd.map (fun s => u64le s.length ++ s)).flatten

/-- Format a 64-bit value as in `format!("{:016x}", _)`: exactly 16
lowercase hexadecimal digits, most significant first. -/
def toHex16 (n : Nat) : String :=
  ⟨(List.range 16).map (fun i => Nat.digitChar (n / 16 ^ (15 - i) % 16))⟩

/-- The cache entry identifier computed by `CacheEntry::new` in
`src/main.rs`: hash the command with `DefaultHasher` and format the 64-bit
result as 16 lowercase hex digits. -/
def cacheEntryId (cmd : List OsStr) : String :=
  toHex16 (sipHash13 (commandHashBytes cmd))

/-- A character is a lowercase hexadecimal digit (`0`..`9` or `a`..`f`). -/
def isLowerHexDigit (c : Char) : Bool :=
  (48 ≤ c.toNat && c.toNat ≤ 57) || (97 ≤ c.toNat && c.toNat ≤ 102)

/-- One file in the flat cache directory, keyed by its base name and its
extension (`<key>` info record, `<key>.stdout`, `<key>.stderr`).  `isFile`
is `DirEntry::file_type().is_file()`. -/
structure FsFile where
  base : String
  ext : Option String
  isFile : Bool
  content : List Nat
deriving DecidableEq, Repr

/-- The flat contents of the cache directory. -/
abbrev Fs := List FsFile

/-- Error taxonomy of the program's fallible operations, as surfaced by
`main`: `notFound` is `io::ErrorKind::NotFound`, `corrupt` a `speedy`
decode failure, `cacheDirNotFound` the message of `clear`/`purge`,
`noCommand` the "No command specified" error, `encoding` a serialization
failure while writing the info record, `ioError` any other I/O failure. -/
inductive KErr
  | notFound
  | corrupt
  | cacheDirNotFound
  | noCommand
  | encoding (e : EncErr)
  | ioError
deriving DecidableEq, Repr

/-- Whether a directory file matches a (base name, extension) key. -/
def keyMatch (base : String) (ext : Option String) (f : FsFile) : Bool :=
  f.base == base && f.ext == ext

/-- Look a file up by key (path resolution plus `File::open`). -/
def lookupFile (fs : Fs) (base : String) (ext : Option String) : Option FsFile :=
  fs.find? (keyMatch base ext)

/-- `Path::exists` for a keyed file. -/
def existsFile (fs : Fs) (base : String) (ext : Option String) : Bool :=
  fs.any (keyMatch base ext)

/-- Drop every file with the given key from the directory. -/
def dropFile (fs : Fs) (base : String) (ext : Option String) : Fs :=
  fs.filter (fun f => !keyMatch base ext f)

/-- `fs::remove_file`: delete the keyed file, failing with `NotFound` (and
leaving the directory unchanged) when it is absent. -/
def removeFileOp (fs : Fs) (base : String) (ext : Option String) :
    Fs × Except KErr Unit :=
  if existsFile fs base ext then (dropFile fs base ext, .ok ())
  else (fs, .error .notFound)

/-- `CacheEntry::remove` from `src/main.rs`: delete the info file, then the
`.stdout` file, then the `.stderr` file, propagating the first failure
(with the deletions already performed kept, as on a real filesystem). -/
def cacheEntryRemove (fs : Fs) (base : String) : Fs × Except KErr Unit :=
  match removeFileOp fs base none with
  | (fs1, .ok _) =>
    match removeFileOp fs1 base (some "stdout") with
    | (fs2, .ok _) => removeFileOp fs2 base (some "stderr")
    | r => r
  | r => r

/-- `CacheEntry::read_info`: open the info file (`NotFound` when absent)
and decode it with `speedy` (`corrupt` when the bytes do not parse). -/
def cacheEntryReadInfo (fs : Fs) (base : String) : Except KErr CacheEntryInfo :=
  match lookupFile fs base none with
  | none => .error .notFound
  | some f =>
    match decodeInfo f.content with
    | none => .error .corrupt
    | some info => .ok info

/-- `CacheEntry::read_stdout` / `read_stderr`: open a blob file for
reading, `NotFound` when absent. -/
def cacheEntryReadBlob (fs : Fs) (base : String) (ext : String) :
    Except KErr (List Nat) :=
  match lookupFile fs base (some ext) with
  | none => .error .notFound
  | some f => .ok f.content

/-- `File::create`: (re)create a keyed file with the given content,
truncating any previous file of that key. -/
def createFile (fs : Fs) (base : String) (ext : Option String)
    (content : List Nat) : Fs :=
  dropFile fs base ext ++ [⟨base, ext, true, content⟩]

/-- `CacheEntry::write_info`: create the info file, then serialize the
record into it; a serialization failure leaves the freshly truncated
(empty) file behind and surfaces the error. -/
def cacheEntryWriteInfo (fs : Fs) (base : String) (info : CacheEntryInfo) :
    Fs × Except KErr Unit :=
  let fs1 := createFile fs base none []
  match encodeInfo info with
  | .ok bs => (createFile fs base none bs, .ok ())
  | .error e => (fs1, .error (.encoding e))

/-- Whether a blob of info-record bytes decodes to a record that is expired
at `now` (used to characterise which entries `purge` deletes). -/
def isExpiredContent (c : List Nat) (now : KTime) : Bool :=
  match decodeInfo c with
  | some info => !info.valid now
  | none => false

/-- The test of `purge`'s loop: the directory item is a plain file with
no extension (`entry.file_type()?.is_file() && path.extension().is_none()`),
i.e. an info record rather than a `.stdout`/`.stderr` companion. -/
def isInfoEntry (f : FsFile) : Bool := f.isFile && f.ext.isNone

/-- The body of the `for` loop of `purge` in `src/main.rs`, iterating over
the snapshot of directory entries returned by `fs::read_dir`: for each
plain file without an extension, resolve it (`CacheEntry::load`), read its
info record, and remove the whole entry when the record is not valid.  The
first failure aborts the scan, keeping the removals already performed. -/
def purgeGo (now : KTime) : Fs → List FsFile → Fs × Except KErr Unit
  | fs, [] => (fs, .ok ())
  | fs, e :: rest =>
    if isInfoEntry e then
      match cacheEntryReadInfo fs e.base with
      | .error er => (fs, .error er)
      | .ok info =>
        if info.valid now then purgeGo now fs rest
        else
          match cacheEntryRemove fs e.base with
          | (fs1, .ok _) => purgeGo now fs1 rest
          | (fs1, .error er) => (fs1, .error er)
    else purgeGo now fs rest

/-- `purge` from `src/main.rs`.  The cache directory is `none` when it does
not exist, in which case `fs::read_dir` fails with `NotFound` and the
operation reports "Cache directory not found". -/
def purgeOp (now : KTime) : Option Fs → Option Fs × Except KErr Unit
  | none => (none, .error .cacheDirNotFound)
  | some fs =>
    match purgeGo now fs fs with
    | (fs1, r) => (some fs1, r)

/-- Among the scanned directory items `es`, some info record with base
name `b` decodes to a record that is expired at `now` (these are exactly
the entries `purge` removes). -/
def expiredIn (es : List FsFile) (now : KTime) (b : String) : Bool :=
  es.any (fun e => isInfoEntry e && e.base == b && isExpiredContent e.content now)

/-- The three extensions making up one cache entry: none (the info
record), `.stdout` and `.stderr`. -/
def tripleExt (x : Option String) : Bool :=
  x == (none : Option String) || x == some "stdout" || x == some "stderr"

/-- Every two distinct files of the directory have distinct
(base name, extension) keys — true of a real directory listing. -/
def DistinctKeys (fs : Fs) : Prop :=
  fs.Pairwise (fun f g => ¬(f.base = g.base ∧ f.ext = g.ext))

/-- `process::ExitStatus`: `code` is `None` when the child was terminated
by a signal (no observable exit code). -/
structure ChildExitStatus where
  code : Option Int
deriving DecidableEq, Repr

/-- An abstract child process, as observed by the relay loop of `main`:
the outcome of the `i`-th bounded read from its stdout pipe, the outcome of
the `i`-th bounded read from its stderr pipe (a returned chunk of length 0
signals end-of-stream), and the outcome of the `try_wait` call of the
`i`-th iteration (consulted only when both reads returned 0 bytes). -/
structure ChildBehavior where
  outRead : Nat → Except KErr (List Nat)
  errRead : Nat → Except KErr (List Nat)
  tryWait : Nat → Except KErr (Option ChildExitStatus)

/-- The streaming relay loop of `main` (`src/main.rs`, the `loop` that
computes `child_status`), iteration by iteration from index `i`: read a
chunk from the child's stdout and append it to the terminal stream and the
stdout cache accumulator, do the same for stderr, and break with the
child's status exactly when both reads returned zero bytes and `try_wait`
reports a terminal status.  `fuel` bounds the number of iterations the
model unrolls; the first component of the result is the accumulated stdout
bytes, the second the accumulated stderr bytes (each written identically to
the terminal and to the cache file), and the third the verdict: an I/O
error propagated by `?`, or `some (i, status)` when iteration `i` broke the
loop, or `none` when the fuel ran out before the loop ended. -/
def relayGo (cb : ChildBehavior) :
    Nat → Nat → List Nat → List Nat →
    List Nat × List Nat × Except KErr (Option (Nat × ChildExitStatus))
  | 0, _, accOut, accErr => (accOut, accErr, .ok none)
  | fuel + 1, i, accOut, accErr =>
    match cb.outRead i with
    | .error e => (accOut, accErr, .error e)
    | .ok outChunk =>
      match cb.errRead i with
      | .error e => (accOut ++ outChunk, accErr, .error e)
      | .ok errChunk =>
        if outChunk.length == 0 && errChunk.length == 0 then
          match cb.tryWait i with
          | .error e => (accOut ++ outChunk, accErr ++ errChunk, .error e)
          | .ok (some st) =>
            (accOut ++ outChunk, accErr ++ errChunk, .ok (some (i, st)))
          | .ok none => relayGo cb fuel (i + 1) (accOut ++ outChunk) (accErr ++ errChunk)
        else relayGo cb fuel (i + 1) (accOut ++ outChunk) (accErr ++ errChunk)

/-- The relay loop started from its entry point. -/
def relayLoop (cb : ChildBehavior) (fuel : Nat) :
    List Nat × List Nat × Except KErr (Option (Nat × ChildExitStatus)) :=
  relayGo cb fuel 0 [] []

/-- The command-line flags and values consumed by `main` (`struct Cli`).
`duration` is modelled as the expiry it induces once added to `now`. -/
structure Cli where
  check : Bool
  remove : Bool
  clear : Bool
  purge : Bool
  ignore : Bool
  force : Bool
  expiry : Option KTime
  duration : Option KTime
  command : List OsStr

/-- What one run of the program did.  `result` is `none` when the relay
loop's fuel ran out (a model artifact), otherwise `some` of main's
outcome: `.ok (some c)` models `process::exit(c)`, `.ok none` a plain
`Ok(())` return, `.error e` an error return.  `cacheDir` is the final
cache directory (`none`: it does not exist), `termOut`/`termErr` the raw
bytes written to the terminal's stdout/stderr, `spawned` whether a child
process was spawned, and `fsAfterCheck` the cache directory contents right
after the expiry-invalidation step (lines 267-278 of `src/main.rs`). -/
structure RunOutcome where
  result : Option (Except KErr (Option Int))
  cacheDir : Option Fs
  termOut : List Nat
  termErr : List Nat
  spawned : Bool
  fsAfterCheck : Fs
deriving Repr

/-- The execute branch (`else` of line 289): create both blob files,
spawn the child and relay its output, then either record the exit code
and exit with it, or tear the entry down when no exit code is
observable. -/
def mainExec (fs1 : Fs) (base : String) (expiry : Option KTime)
    (cli : Cli) (cb : ChildBehavior) (fuel : Nat) : RunOutcome :=
  let fs2 := createFile fs1 base (some "stdout") []
  let fs3 := createFile fs2 base (some "stderr") []
  match relayLoop cb fuel with
  | (o, e, .error er) =>
    let fs4 := createFile (createFile fs3 base (some "stdout") o) base
      (some "stderr") e
    ⟨some (.error er), some fs4, o, e, true, fs1⟩
  | (o, e, .ok none) =>
    let fs4 := createFile (createFile fs3 base (some "stdout") o) base
      (some "stderr") e
    ⟨none, some fs4, o, e, true, fs1⟩
  | (o, e, .ok (some (_, st))) =>
    let fs4 := createFile (createFile fs3 base (some "stdout") o) base
      (some "stderr") e
    match st.code with
    | some exitCode =>
      match cacheEntryWriteInfo fs4 base ⟨cli.command, expiry, exitCode⟩ with
      | (fs5, .ok _) => ⟨some (.ok (some exitCode)), some fs5, o, e, true, fs1⟩
      | (fs5, .error er) => ⟨some (.error er), some fs5, o, e, true, fs1⟩
    | none =>
      match cacheEntryRemove fs4 base with
      | (fs5, .ok _) => ⟨some (.ok none), some fs5, o, e, true, fs1⟩
      | (fs5, .error er) => ⟨some (.error er), some fs5, o, e, true, fs1⟩

/-- The core control flow of `main` from `src/main.rs`, after CLI parsing:
`--clear` and `--purge` run their maintenance operation; otherwise the
cache directory is created if missing (`create_dir_all`) and the entry id
derived from the command; `--check` and `--remove` report on the entry;
otherwise the expiry is computed, an empty command is an error, an
existing valid entry invalid at `now` is removed, a (still) valid entry is
replayed (copy both cached blobs to the terminal and exit with the stored
code, spawning nothing), and otherwise both blob files are created, the
command is spawned and relayed, and on a known exit code the info record
is written and the program exits with that code, while a code-less
(signal) termination attempts `CacheEntry::remove`.  All clock readings
(`SystemTime::now()`) are the single parameter `now`. -/
def mainRun (cli : Cli) (now : KTime) (cacheDir : Option Fs)
    (cb : ChildBehavior) (fuel : Nat) : RunOutcome :=
  if cli.clear then
    match cacheDir with
    | none => ⟨some (.error .cacheDirNotFound), none, [], [], false, []⟩
    | some _ => ⟨some (.ok none), none, [], [], false, []⟩
  else if cli.purge then
    match purgeOp now cacheDir with
    | (dir1, .ok _) => ⟨some (.ok none), dir1, [], [], false, dir1.getD []⟩
    | (dir1, .error e) => ⟨some (.error e), dir1, [], [], false, dir1.getD []⟩
  else
    let fs0 := cacheDir.getD []
    let base := cacheEntryId cli.command
    if cli.check then
      if existsFile fs0 base none then
        match cacheEntryReadInfo fs0 base with
        | .ok _ => ⟨some (.ok none), some fs0, [], [], false, fs0⟩
        | .error e => ⟨some (.error e), some fs0, [], [], false, fs0⟩
      else ⟨some (.error .notFound), some fs0, [], [], false, fs0⟩
    else if cli.remove then
      match cacheEntryRemove fs0 base with
      | (fs1, .ok _) => ⟨some (.ok none), some fs1, [], [], false, fs1⟩
      | (fs1, .error e) => ⟨some (.error e), some fs1, [], [], false, fs1⟩
    else
      match cli.command with
      | [] => ⟨some (.error .noCommand), some fs0, [], [], false, fs0⟩
      | _ :: _ =>
        let expiry := cli.expiry.or cli.duration
        match
          (match cacheEntryReadInfo fs0 base with
           | .ok info =>
             if info.valid now then (fs0, .ok (some info))
             else
               match cacheEntryRemove fs0 base with
               | (fs1, .ok _) => (fs1, .ok none)
               | (fs1, .error e) => (fs1, .error e)
           | .error .notFound => (fs0, .ok none)
           | .error e => (fs0, .error e) :
            Fs × Except KErr (Option CacheEntryInfo))
        with
        | (fs1, .error e) => ⟨some (.error e), some fs1, [], [], false, fs1⟩
        | (fs1, .ok infoOpt) =>
          match infoOpt with
          | some info =>
            if info.valid now then
              match cacheEntryReadBlob fs1 base "stdout" with
              | .error e => ⟨some (.error e), some fs1, [], [], false, fs1⟩
              | .ok outBytes =>
                match cacheEntryReadBlob fs1 base "stderr" with
                | .error e => ⟨some (.error e), some fs1, [], [], false, fs1⟩
                | .ok errBytes =>
                  ⟨some (.ok (some info.exit_code)), some fs1, outBytes,
                    errBytes, false, fs1⟩
            else
              mainExec fs1 base expiry cli cb fuel
          | none => mainExec fs1 base expiry cli cb fuel

/-- One pending write of the child process: a byte destined for its stdout
pipe or for its stderr pipe. -/
inductive PipeWrite
  | outByte
  | errByte
deriving DecidableEq, Repr

/-- Which blocking read the parent's relay loop is currently performing:
the loop body always reads the stdout pipe first, then the stderr pipe. -/
inductive ParentPc
  | readOut
  | readErr
deriving DecidableEq, Repr

/-- A state of the parent/child system during the relay: the parent's
program counter, the number of bytes buffered in each pipe, and the
child's remaining writes (the child exits, closing both pipe write ends,
once the list is empty). -/
structure RelaySys where
  pc : ParentPc
  pipeOut : Nat
  pipeErr : Nat
  childOps : List PipeWrite
deriving DecidableEq, Repr

/-- The interleaved small-step semantics of the blocking relay loop of
`src/main.rs` against a child process, with pipe buffers of capacity
`cap`.  A blocking `read` on a pipe completes only when the pipe holds
data or its write end is closed (the child has exited); it drains the
buffered bytes (at most the 0xFFFF-byte read buffer; buffered amounts here
never exceed `cap`).  A child write blocks while its pipe's buffer is
full.  The parent only ever alternates stdout-read, stderr-read, exactly
as the loop body does. -/
inductive RelayStep (cap : Nat) : RelaySys → RelaySys → Prop
  | parentOut (po pe : Nat) (ops : List PipeWrite) (h : 0 < po ∨ ops = []) :
      RelayStep cap ⟨.readOut, po, pe, ops⟩ ⟨.readErr, 0, pe, ops⟩
  | parentErr (po pe : Nat) (ops : List PipeWrite) (h : 0 < pe ∨ ops = []) :
      RelayStep cap ⟨.readErr, po, pe, ops⟩ ⟨.readOut, po, 0, ops⟩
  | childOut (pc : ParentPc) (po pe : Nat) (rest : List PipeWrite)
      (h : po < cap) :
      RelayStep cap ⟨pc, po, pe, .outByte :: rest⟩ ⟨pc, po + 1, pe, rest⟩
  | childErr (pc : ParentPc) (po pe : Nat) (rest : List PipeWrite)
      (h : pe < cap) :
      RelayStep cap ⟨pc, po, pe, .errByte :: rest⟩ ⟨pc, po, pe + 1, rest⟩

/-- The initial relay state for a freshly spawned child with pending
writes `ops`: parent blocked at the first stdout read, both pipes empty. -/
def relayInit (ops : List PipeWrite) : RelaySys := ⟨.readOut, 0, 0, ops⟩

/-- The relay loop's break condition holds at iteration `m`: both bounded
reads return zero bytes and `try_wait` reports a terminal status. -/
def breaksAt (cb : ChildBehavior) (m : Nat) (st : ChildExitStatus) : Prop :=
  cb.outRead m = .ok [] ∧ cb.errRead m = .ok [] ∧ cb.tryWait m = .ok (some st)

/-- Iteration `m` of the relay loop completes without error and without
breaking: both reads succeed, and if both return zero bytes then
`try_wait` succeeds reporting no terminal status yet. -/
def continuesAt (cb : ChildBehavior) (m : Nat) : Prop :=
  (∃ c, cb.outRead m = .ok c) ∧ (∃ c, cb.errRead m = .ok c) ∧
    (cb.outRead m = .ok [] → cb.errRead m = .ok [] → cb.tryWait m = .ok none)

/-- A concrete child for the C1 witness: one 3-byte stdout chunk, then
end-of-stream on both pipes with the process reaped at iteration 1. -/
def relayWitnessChild : ChildBehavior :=
  ⟨fun i => .ok (if i == 0 then [3] else []),
   fun _ => .ok [],
   fun i => .ok (if i == 0 then none else some ⟨some 0⟩)⟩

/-- Concrete CLI input for the main-flow witnesses: a plain run (no
flags) of the one-element command `["a"]`. -/
def witnessCli : Cli := ⟨false, false, false, false, false, false, none, none, [[0x61]]⟩

/-- Info-record bytes for the command `[[0x61]]`, no expiry, exit code 5. -/
def witnessInfoBytes : List Nat := [1, 0, 0, 0, 1, 0, 0, 0, 0x61, 0, 5, 0, 0, 0]

/-- A cache directory holding the complete valid entry for `witnessCli`. -/
def witnessFs : Fs :=
  [⟨cacheEntryId [[0x61]], none, true, witnessInfoBytes⟩,
   ⟨cacheEntryId [[0x61]], some "stdout", true, [7, 8]⟩,
   ⟨cacheEntryId [[0x61]], some "stderr", true, [9]⟩]

/-- Info-record bytes for the command `[[0x61]]` with expiry at one second
past the epoch and exit code 0 (expired at any later clock). -/
def witnessExpiredBytes : List Nat :=
  [1, 0, 0, 0, 1, 0, 0, 0, 0x61,
   1, 1, 0, 0, 0, 0, 0, 0, 0, 0, 0, 0, 0,
   0, 0, 0, 0]

/-- A cache directory holding the complete expired entry for `witnessCli`. -/
def witnessExpiredFs : Fs :=
  [⟨cacheEntryId [[0x61]], none, true, witnessExpiredBytes⟩,
   ⟨cacheEntryId [[0x61]], some "stdout", true, [7, 8]⟩,
   ⟨cacheEntryId [[0x61]], some "stderr", true, [9]⟩]

/-- A child process that writes one stdout chunk and is then terminated by
a signal: `try_wait` reports a status whose `code()` is `None`. -/
def sigChild : ChildBehavior :=
  ⟨fun i => .ok (if i == 0 then [5] else []),
   fun _ => .ok [],
   fun i => .ok (if i == 0 then none else some ⟨none⟩)⟩

/-- A directory with two complete entries: entry `a` never expires, entry
`b` expired one second past the epoch. -/
def purgeWitnessFs : Fs :=
  [⟨"a", none, true, witnessInfoBytes⟩,
   ⟨"a", some "stdout", true, [1]⟩,
   ⟨"a", some "stderr", true, [2]⟩,
   ⟨"b", none, true, witnessExpiredBytes⟩,
   ⟨"b", some "stdout", true, [3]⟩,
   ⟨"b", some "stderr", true, [4]⟩]

theorem ktime_lt_irrefl (t : KTime) : KTime.lt t t = false := by
  simp [KTime.lt]

/-- C3: for every `CacheEntryInfo` and every check time `now`, `valid()`
returns true if and only if `expiry` is absent or `now` is strictly before
`expiry`; in particular an expiry timestamp exactly equal to `now` makes
the entry invalid (expired). -/
theorem valid_iff_expiry_absent_or_future (info : CacheEntryInfo) (now : KTime) :
    (info.valid now = true ↔
      (info.expiry = none ∨ ∃ t, info.expiry = some t ∧ KTime.lt now t = true))
    ∧ (info.expiry = some now → info.valid now = false) := by
  constructor
  · cases h : info.expiry with
    | none => simp [CacheEntryInfo.valid, h]
    | some t => simp [CacheEntryInfo.valid, h]
  · intro h
    simp [CacheEntryInfo.valid, h, ktime_lt_irrefl]

/-- Witness for C3 at a concrete record and clock: an entry whose expiry
equals the check time is invalid. -/
theorem valid_iff_expiry_absent_or_future_witness :
    CacheEntryInfo.valid ⟨[], some ⟨5, 7⟩, 0⟩ ⟨5, 7⟩ = false :=
  (valid_iff_expiry_absent_or_future ⟨[], some ⟨5, 7⟩, 0⟩ ⟨5, 7⟩).2 rfl

theorem digitChar_lower_hex (m : Nat) (h : m < 16) :
    isLowerHexDigit (Nat.digitChar m) = true := by
  interval_cases m <;> decide

/-- C8: cache-key derivation is a deterministic, pure function of the
command's element bytes and element order (it is the Lean function
`cacheEntryId`), each element contributing its boundary so that the
commands `["a","bc"]` and `["ab","c"]` derive different keys, and the
derived key is always a fixed-width (16-character) lowercase hexadecimal
string. -/
theorem cacheEntryId_spec (cmd : List OsStr) :
    (cacheEntryId cmd).length = 16
    ∧ (∀ c ∈ (cacheEntryId cmd).data, isLowerHexDigit c = true)
    ∧ cacheEntryId [[0x61], [0x62, 0x63]] ≠ cacheEntryId [[0x61, 0x62], [0x63]] := by
  refine ⟨?_, ?_, by decide⟩
  · simp [cacheEntryId, toHex16, String.length]
  · intro c hc
    simp only [cacheEntryId, toHex16, List.mem_map, List.mem_range] at hc
    obtain ⟨i, _, rfl⟩ := hc
    exact digitChar_lower_hex _ (Nat.mod_lt _ (by norm_num))

/-- Witness for C8: the key of a concrete command has length 16 and its
first character is a lowercase hex digit. -/
theorem cacheEntryId_spec_witness :
    (cacheEntryId [[0x61]]).length = 16 ∧
      isLowerHexDigit (cacheEntryId [[0x61]]).data.headI = true :=
  ⟨(cacheEntryId_spec [[0x61]]).1,
   (cacheEntryId_spec [[0x61]]).2.1 _ (by decide)⟩

theorem writeOsStrs_non_text (cs : List OsStr)
    (hbad : ∃ s ∈ cs, validUtf8 s = false)
    (hlen : ∀ s ∈ cs, s.length < 2 ^ 32) :
    writeOsStrs cs = .error .encodingError := by
  induction cs with
  | nil => obtain ⟨s, hs, _⟩ := hbad; exact absurd hs (List.not_mem_nil s)
  | cons s rest ih =>
    by_cases hv : validUtf8 s
    · have hrest : ∃ t ∈ rest, validUtf8 t = false := by
        obtain ⟨t, ht, htv⟩ := hbad
        rcases List.mem_cons.mp ht with rfl | hmem
        · exact absurd hv (by simp [htv])
        · exact ⟨t, hmem, htv⟩
      have hl : s.length < 4294967296 := by have := hlen s (by simp); omega
      have := ih hrest (fun t ht => hlen t (by simp [ht]))
      simp [writeOsStrs, writeOsStr, hv, writeLength, hl, this]
    · simp [writeOsStrs, writeOsStr, hv]

/-- C5: for every `CacheEntryInfo` containing a platform string that is
not representable as valid text (not valid UTF-8), encoding fails by
returning the `EncodingError` result raised by `OsString::write_to` — it
does not silently write lossy data.  (The length bounds model the machine
types of the real values.) -/
theorem encodeInfo_non_text_fails (info : CacheEntryInfo)
    (hbad : ∃ s ∈ info.command, validUtf8 s = false)
    (hlen : ∀ s ∈ info.command, s.length < 2 ^ 32)
    (hcount : info.command.length < 2 ^ 32) :
    encodeInfo info = .error .encodingError := by
  have h := writeOsStrs_non_text info.command hbad hlen
  have hc : info.command.length < 4294967296 := by omega
  simp [encodeInfo, writeCommand, writeLength, hc, h]

/-- Witness for C5: a command holding the lone byte 0xFF (not valid UTF-8)
makes encoding fail with the encoding error. -/
theorem encodeInfo_non_text_fails_witness :
    encodeInfo ⟨[[0xFF]], none, 0⟩ = .error .encodingError :=
  encodeInfo_non_text_fails ⟨[[0xFF]], none, 0⟩
    ⟨[0xFF], by decide, by decide⟩ (by decide) (by decide)

theorem readU32_u32le (n : Nat) (h : n < 2 ^ 32) (rest : List Nat) :
    readU32 (u32le n ++ rest) = some (n, rest) := by
  simp only [u32le, List.cons_append, List.nil_append, readU32,
    Option.some.injEq, Prod.mk.injEq, and_true]
  omega

theorem readU64_u64le (n : Nat) (h : n < 2 ^ 64) (rest : List Nat) :
    readU64 (u64le n ++ rest) = some (n, rest) := by
  simp only [u64le, List.cons_append, List.nil_append, readU64,
    Option.some.injEq, Prod.mk.injEq, and_true]
  omega

theorem readBytes_append (s rest : List Nat) :
    readBytes s.length (s ++ rest) = some (s, rest) := by
  simp [readBytes, List.take_left, List.drop_left]

theorem readOsStr_writeOsStr (s : OsStr) (bs rest : List Nat)
    (h : writeOsStr s = .ok bs) :
    readOsStr (bs ++ rest) = some (s, rest) := by
  unfold writeOsStr writeLength at h
  by_cases hv : validUtf8 s
  · by_cases hl : s.length < 2 ^ 32
    · rw [if_pos hv, if_pos hl] at h
      cases h
      rw [List.append_assoc]
      simp [readOsStr, readU32_u32le s.length hl (s ++ rest), readBytes_append, hv]
    · rw [if_pos hv, if_neg hl] at h
      exact Except.noConfusion h
  · simp [hv] at h

theorem readOsStrs_writeOsStrs (cs : List OsStr) (bs rest : List Nat)
    (h : writeOsStrs cs = .ok bs) :
    readOsStrs cs.length (bs ++ rest) = some (cs, rest) := by
  induction cs generalizing bs rest with
  | nil =>
    unfold writeOsStrs at h
    cases h
    simp [readOsStrs]
  | cons s cs ih =>
    unfold writeOsStrs at h
    cases hs : writeOsStr s with
    | error e => simp [hs] at h
    | ok b =>
      cases hcs : writeOsStrs cs with
      | error e => simp [hs, hcs] at h
      | ok bs1 =>
        simp only [hs, hcs] at h
        cases h
        simp only [List.length_cons, readOsStrs, List.append_assoc,
          readOsStr_writeOsStr s b (bs1 ++ rest) hs, ih bs1 rest hcs]

theorem readCommand_writeCommand (cs : List OsStr) (bs rest : List Nat)
    (h : writeCommand cs = .ok bs) :
    readCommand (bs ++ rest) = some (cs, rest) := by
  unfold writeCommand writeLength at h
  by_cases hl : cs.length < 2 ^ 32
  · rw [if_pos hl] at h
    cases hcs : writeOsStrs cs with
    | error e => simp [hcs] at h
    | ok bs1 =>
      simp only [hcs] at h
      cases h
      rw [List.append_assoc]
      simp only [readCommand, readU32_u32le cs.length hl (bs1 ++ rest),
        readOsStrs_writeOsStrs cs bs1 rest hcs]
  · rw [if_neg hl] at h
    exact Except.noConfusion h

theorem readTime_writeTime (t : KTime) (bs rest : List Nat)
    (h : writeTime t = .ok bs) :
    readTime (bs ++ rest) = some (t, rest) := by
  unfold writeTime at h
  by_cases h1 : t.secs < 2 ^ 64
  · by_cases h2 : t.nanos < 2 ^ 32
    · rw [if_pos ⟨h1, h2⟩] at h
      cases h
      rw [List.append_assoc]
      simp only [readTime, readU64_u64le t.secs h1 (u32le t.nanos ++ rest),
        readU32_u32le t.nanos h2 rest]
    · rw [if_neg (fun hc => h2 hc.2)] at h
      exact Except.noConfusion h
  · rw [if_neg (fun hc => h1 hc.1)] at h
    exact Except.noConfusion h

theorem readOptTime_writeOptTime (x : Option KTime) (bs rest : List Nat)
    (h : writeOptTime x = .ok bs) :
    readOptTime (bs ++ rest) = some (x, rest) := by
  cases x with
  | none =>
    unfold writeOptTime at h
    cases h
    simp [readOptTime]
  | some t =>
    unfold writeOptTime at h
    cases ht : writeTime t with
    | error e => simp [ht] at h
    | ok bs1 =>
      simp only [ht] at h
      cases h
      simp only [List.cons_append, readOptTime,
        readTime_writeTime t bs1 rest ht]

theorem readI32_writeI32 (e : Int) (bs rest : List Nat)
    (h : writeI32 e = .ok bs) :
    readI32 (bs ++ rest) = some (e, rest) := by
  unfold writeI32 at h
  by_cases h1 : -2 ^ 31 ≤ e
  · by_cases h2 : e < 2 ^ 31
    · rw [if_pos ⟨h1, h2⟩] at h
      cases h
      simp only [readI32, readU32_u32le (e % 2 ^ 32).toNat (by omega) rest,
        Option.some.injEq, Prod.mk.injEq, and_true]
      split <;> omega
    · rw [if_neg (fun hc => h2 hc.2)] at h
      exact Except.noConfusion h
  · rw [if_neg (fun hc => h1 hc.1)] at h
    exact Except.noConfusion h

theorem parseInfo_encodeInfo (info : CacheEntryInfo) (bs : List Nat)
    (h : encodeInfo info = .ok bs) :
    parseInfo bs = some (info, []) := by
  unfold encodeInfo at h
  cases hc : writeCommand info.command with
  | error e => simp [hc] at h
  | ok c =>
    cases ht : writeOptTime info.expiry with
    | error e => simp [hc, ht] at h
    | ok t =>
      cases hx : writeI32 info.exit_code with
      | error e => simp [hc, ht, hx] at h
      | ok x =>
        simp only [hc, ht, hx] at h
        cases h
        have hx1 := readI32_writeI32 info.exit_code x [] hx
        rw [List.append_nil] at hx1
        rw [List.append_assoc]
        simp only [parseInfo, readCommand_writeCommand info.command c (t ++ x) hc,
          readOptTime_writeOptTime info.expiry t x ht, hx1]

theorem writeOsStrs_ok (cs : List OsStr)
    (htext : ∀ s ∈ cs, validUtf8 s = true)
    (hlen : ∀ s ∈ cs, s.length < 2 ^ 32) :
    ∃ bs, writeOsStrs cs = .ok bs := by
  induction cs with
  | nil => exact ⟨[], rfl⟩
  | cons s cs ih =>
    obtain ⟨bs1, hbs1⟩ := ih (fun t ht => htext t (by simp [ht]))
      (fun t ht => hlen t (by simp [ht]))
    refine ⟨u32le s.length ++ s ++ bs1, ?_⟩
    unfold writeOsStrs writeOsStr writeLength
    rw [if_pos (htext s (by simp)), if_pos (hlen s (by simp)), hbs1]

/-- C4: for every `CacheEntryInfo` whose command strings are all
representable as valid text (and whose values fit their machine types:
string and vector lengths in `u32`, timestamp in `u64`/`u32` seconds and
nanoseconds, exit code in `i32`), the binary encoding exists and decoding
it yields a record equal to the original in every field — covering
`expiry = none`, `expiry = some t`, the empty command, empty strings, and
non-ASCII text arguments. -/
theorem decode_encode_roundtrip (info : CacheEntryInfo)
    (htext : ∀ s ∈ info.command, validUtf8 s = true)
    (hlen : ∀ s ∈ info.command, s.length < 2 ^ 32)
    (hcount : info.command.length < 2 ^ 32)
    (hexp : ∀ t, info.expiry = some t → t.secs < 2 ^ 64 ∧ t.nanos < 2 ^ 32)
    (hexit : -2 ^ 31 ≤ info.exit_code ∧ info.exit_code < 2 ^ 31) :
    ∃ bs, encodeInfo info = .ok bs ∧ decodeInfo bs = some info := by
  obtain ⟨cbs, hcbs⟩ := writeOsStrs_ok info.command htext hlen
  have hc : writeCommand info.command = .ok (u32le info.command.length ++ cbs) := by
    unfold writeCommand writeLength
    rw [if_pos hcount, hcbs]
  have ht : ∃ tbs, writeOptTime info.expiry = .ok tbs := by
    cases hx : info.expiry with
    | none => exact ⟨[0], rfl⟩
    | some t =>
      obtain ⟨h1, h2⟩ := hexp t hx
      refine ⟨1 :: (u64le t.secs ++ u32le t.nanos), ?_⟩
      unfold writeOptTime writeTime
      dsimp only
      rw [if_pos ⟨h1, h2⟩]
  obtain ⟨tbs, htbs⟩ := ht
  have hx : writeI32 info.exit_code = .ok (u32le (info.exit_code % 2 ^ 32).toNat) := by
    unfold writeI32
    rw [if_pos hexit]
  have henc : encodeInfo info =
      .ok (u32le info.command.length ++ cbs ++ tbs ++
        u32le (info.exit_code % 2 ^ 32).toNat) := by
    unfold encodeInfo
    rw [hc, htbs, hx]
  refine ⟨_, henc, ?_⟩
  unfold decodeInfo
  rw [parseInfo_encodeInfo info _ henc]
  rfl

/-- Witness for C4 at a concrete record exercising the interesting cases:
an empty string, a non-ASCII (two-byte UTF-8) string, a present expiry and
a negative exit code. -/
theorem decode_encode_roundtrip_witness :
    ∃ bs, encodeInfo ⟨[[], [0xC3, 0xA9]], some ⟨1700000000, 123456789⟩, -7⟩ = .ok bs
      ∧ decodeInfo bs = some ⟨[[], [0xC3, 0xA9]], some ⟨1700000000, 123456789⟩, -7⟩ :=
  decode_encode_roundtrip ⟨[[], [0xC3, 0xA9]], some ⟨1700000000, 123456789⟩, -7⟩
    (by decide) (by decide) (by decide)
    (fun t h => by cases h; exact ⟨by norm_num, by norm_num⟩) (by norm_num)

theorem relayGo_break_sound (cb : ChildBehavior) :
    ∀ fuel i accOut accErr o e n st,
      relayGo cb fuel i accOut accErr = (o, e, .ok (some (n, st))) →
      i ≤ n ∧ breaksAt cb n st ∧
        ∀ m, i ≤ m → m < n → ¬ ∃ st', breaksAt cb m st' := by
  intro fuel
  induction fuel with
  | zero => intro i accOut accErr o e n st h; simp [relayGo] at h
  | succ fuel ih =>
    intro i accOut accErr o e n st h
    unfold relayGo at h
    cases hout : cb.outRead i with
    | error er => rw [hout] at h; simp at h
    | ok outChunk =>
      rw [hout] at h
      cases herr : cb.errRead i with
      | error er => rw [herr] at h; simp at h
      | ok errChunk =>
        rw [herr] at h
        dsimp only at h
        by_cases hz : (outChunk.length == 0 && errChunk.length == 0) = true
        · rw [if_pos hz] at h
          simp only [Bool.and_eq_true, beq_iff_eq, List.length_eq_zero] at hz
          obtain ⟨rfl, rfl⟩ := hz
          cases hw : cb.tryWait i with
          | error er => rw [hw] at h; simp at h
          | ok w =>
            rw [hw] at h
            cases w with
            | some st1 =>
              simp only [Prod.mk.injEq, Except.ok.injEq, Option.some.injEq] at h
              obtain ⟨-, -, rfl, rfl⟩ := h
              exact ⟨le_refl _, ⟨hout, herr, hw⟩, fun m h1 h2 => absurd h1 (by omega)⟩
            | none =>
              obtain ⟨h1, h2, h3⟩ := ih (i + 1) _ _ o e n st h
              refine ⟨by omega, h2, fun m hm1 hm2 hb => ?_⟩
              by_cases hmi : m = i
              · obtain ⟨st', -, -, hw'⟩ := hb
                rw [hmi, hw] at hw'
                simp at hw'
              · exact h3 m (by omega) hm2 hb
        · rw [if_neg hz] at h
          obtain ⟨h1, h2, h3⟩ := ih (i + 1) _ _ o e n st h
          refine ⟨by omega, h2, fun m hm1 hm2 hb => ?_⟩
          by_cases hmi : m = i
          · obtain ⟨st', ho', he', -⟩ := hb
            rw [hmi, hout] at ho'
            rw [hmi, herr] at he'
            simp only [Except.ok.injEq] at ho' he'
            exact hz (by simp [ho', he'])
          · exact h3 m (by omega) hm2 hb

theorem relayGo_break_complete (cb : ChildBehavior) :
    ∀ fuel i accOut accErr n st,
      i ≤ n → n - i < fuel →
      (∀ m, i ≤ m → m < n → continuesAt cb m) →
      breaksAt cb n st →
      ∃ o e, relayGo cb fuel i accOut accErr = (o, e, .ok (some (n, st))) := by
  intro fuel
  induction fuel with
  | zero => intro i _ _ n st h1 h2 _ _; omega
  | succ fuel ih =>
    intro i accOut accErr n st h1 h2 hcont hbr
    by_cases hin : i = n
    · subst hin
      obtain ⟨ho, he, hw⟩ := hbr
      refine ⟨accOut, accErr, ?_⟩
      unfold relayGo
      rw [ho, he]
      dsimp only
      rw [if_pos (by decide), hw]
      simp
    · have hcur := hcont i (le_refl _) (by omega)
      obtain ⟨⟨oc, hoc⟩, ⟨ec, hec⟩, himp⟩ := hcur
      by_cases hz : (oc.length == 0 && ec.length == 0) = true
      · simp only [Bool.and_eq_true, beq_iff_eq, List.length_eq_zero] at hz
        obtain ⟨rfl, rfl⟩ := hz
        have hw := himp hoc hec
        obtain ⟨o, e, hrec⟩ := ih (i + 1) (accOut ++ []) (accErr ++ []) n st
          (by omega) (by omega) (fun m hm1 hm2 => hcont m (by omega) hm2) hbr
        refine ⟨o, e, ?_⟩
        unfold relayGo
        rw [hoc, hec]
        dsimp only
        rw [if_pos (by decide), hw]
        exact hrec
      · obtain ⟨o, e, hrec⟩ := ih (i + 1) (accOut ++ oc) (accErr ++ ec) n st
          (by omega) (by omega) (fun m hm1 hm2 => hcont m (by omega) hm2) hbr
        refine ⟨o, e, ?_⟩
        unfold relayGo
        rw [hoc, hec]
        dsimp only
        rw [if_neg hz]
        exact hrec

/-- C1: the streaming relay loop terminates normally (breaks with a
status) exactly at — and only at — an iteration in which the bounded read
from the child's stdout pipe returned zero bytes, the bounded read from
the stderr pipe returned zero bytes, and `try_wait` reported a terminal
status; a zero-byte read on one pipe alone, or a reported status together
with a non-zero read on either pipe, never ends the loop at an earlier
iteration.  Conversely, the first iteration satisfying the condition does
end the loop (given enough fuel and error-free earlier iterations). -/
theorem relay_loop_termination (cb : ChildBehavior) (fuel n : Nat)
    (st : ChildExitStatus) :
    ((∃ o e, relayLoop cb fuel = (o, e, .ok (some (n, st)))) →
      breaksAt cb n st ∧ ∀ m, m < n → ¬ ∃ st', breaksAt cb m st')
    ∧ ((∀ m, m < n → continuesAt cb m) → breaksAt cb n st → n < fuel →
      ∃ o e, relayLoop cb fuel = (o, e, .ok (some (n, st)))) := by
  constructor
  · intro ⟨o, e, h⟩
    obtain ⟨-, h2, h3⟩ := relayGo_break_sound cb fuel 0 [] [] o e n st h
    exact ⟨h2, fun m hm => h3 m (Nat.zero_le m) hm⟩
  · intro hcont hbr hfuel
    exact relayGo_break_complete cb fuel 0 [] [] n st (Nat.zero_le n)
      (by omega) (fun m _ hm => hcont m hm) hbr

/-- Witness for C1: the loop on `relayWitnessChild` breaks exactly at
iteration 1. -/
theorem relay_loop_termination_witness :
    ∃ o e, relayLoop relayWitnessChild 2 = (o, e, .ok (some (1, ⟨some 0⟩))) :=
  (relay_loop_termination relayWitnessChild 2 1 ⟨some 0⟩).2
    (fun m hm => by
      interval_cases m
      exact ⟨⟨[3], rfl⟩, ⟨[], rfl⟩, fun h _ => by simp [relayWitnessChild] at h⟩)
    ⟨rfl, rfl, rfl⟩ (by omega)

theorem relay_deadlock_reach (cap : Nat) : ∀ j, j ≤ cap →
    Relation.ReflTransGen (RelayStep cap)
      (relayInit (List.replicate (cap + 1) .errByte))
      ⟨.readOut, 0, j, List.replicate (cap + 1 - j) .errByte⟩ := by
  intro j
  induction j with
  | zero =>
    intro _
    simpa [relayInit] using Relation.ReflTransGen.refl
  | succ j ih =>
    intro hj
    have hstep : RelayStep cap ⟨.readOut, 0, j, List.replicate (cap + 1 - j) .errByte⟩
        ⟨.readOut, 0, j + 1, List.replicate (cap + 1 - (j + 1)) .errByte⟩ := by
      have hr : List.replicate (cap + 1 - j) PipeWrite.errByte =
          .errByte :: List.replicate (cap + 1 - (j + 1)) PipeWrite.errByte := by
        rw [show cap + 1 - j = (cap + 1 - (j + 1)) + 1 by omega, List.replicate_succ]
      rw [hr]
      exact RelayStep.childErr _ 0 j _ (by omega)
    exact (ih (by omega)).tail hstep

/-- C9 is violated by the code: the sequential blocking-read relay loop
can block indefinitely on the stdout pipe while the stderr pipe holds
undelivered data.  For every pipe capacity, a child that writes `cap + 1`
bytes to stderr before touching stdout drives the system into a reachable
state with no enabled step: the parent is blocked in its stdout read (no
data, write end still open) while the child is blocked writing stderr
(buffer full) — a deadlock with the stderr pipe full and the child still
holding data to deliver. -/
theorem relay_blocking_deadlock (cap : Nat) :
    ∃ s : RelaySys,
      Relation.ReflTransGen (RelayStep cap)
        (relayInit (List.replicate (cap + 1) .errByte)) s
      ∧ (∀ s', ¬ RelayStep cap s s')
      ∧ s.childOps ≠ []
      ∧ s.pipeErr = cap := by
  have hreach := relay_deadlock_reach cap cap (le_refl cap)
  rw [show cap + 1 - cap = 1 by omega, List.replicate_one] at hreach
  refine ⟨⟨.readOut, 0, cap, [.errByte]⟩, hreach, ?_, by simp, rfl⟩
  intro s' hstep
  cases hstep with
  | parentOut po pe ops h =>
    rcases h with h | h
    · omega
    · simp at h
  | childErr pc po pe rest h => omega

theorem any_filter_subsumed (p q : FsFile → Bool) (fs : Fs)
    (h : ∀ f, q f = true → p f = true) :
    (fs.filter p).any q = fs.any q := by
  induction fs with
  | nil => rfl
  | cons f fs ih =>
    by_cases hp : p f = true
    · simp [List.filter_cons, hp, List.any_cons, ih]
    · have hq : q f = false := by
        cases hqf : q f
        · rfl
        · exact absurd (h f hqf) hp
      simp [List.filter_cons, hp, List.any_cons, hq, ih]

theorem existsFile_of_lookup (fs : Fs) (b : String) (x : Option String)
    (f : FsFile) (h : lookupFile fs b x = some f) :
    existsFile fs b x = true := by
  unfold lookupFile at h
  unfold existsFile
  rw [List.any_eq_true]
  exact ⟨f, List.mem_of_find?_eq_some h, List.find?_some h⟩

theorem existsFile_dropFile_ne (fs : Fs) (b1 : String) (x1 : Option String)
    (b2 : String) (x2 : Option String) (h : ¬(b1 = b2 ∧ x1 = x2)) :
    existsFile (dropFile fs b2 x2) b1 x1 = existsFile fs b1 x1 := by
  unfold existsFile dropFile
  refine any_filter_subsumed _ _ fs (fun f hf => ?_)
  simp only [keyMatch, Bool.and_eq_true, beq_iff_eq] at hf
  simp only [keyMatch, Bool.not_eq_true', Bool.and_eq_false_iff]
  by_cases hb : f.base = b2
  · right
    rw [beq_eq_false_iff_ne]
    intro hx
    exact h ⟨hf.1.symm.trans hb, hf.2.symm.trans hx⟩
  · left
    rw [beq_eq_false_iff_ne]
    exact hb

theorem existsFile_dropFile_self (fs : Fs) (b : String) (x : Option String) :
    existsFile (dropFile fs b x) b x = false := by
  unfold existsFile dropFile
  rw [List.any_eq_false]
  intro f hf
  have hp := List.of_mem_filter hf
  simp only [Bool.not_eq_true'] at hp
  simp [hp]

theorem lookup_readInfo (fs : Fs) (b : String) (info : CacheEntryInfo)
    (h : cacheEntryReadInfo fs b = .ok info) :
    ∃ f, lookupFile fs b none = some f ∧ decodeInfo f.content = some info := by
  unfold cacheEntryReadInfo at h
  cases hl : lookupFile fs b none with
  | none => rw [hl] at h; exact Except.noConfusion h
  | some f =>
    rw [hl] at h
    dsimp only at h
    cases hd : decodeInfo f.content with
    | none => rw [hd] at h; exact Except.noConfusion h
    | some i =>
      rw [hd] at h
      cases h
      exact ⟨f, rfl, hd⟩

/-- When the entry's three files are present, `CacheEntry::remove`
succeeds and removes exactly the three keyed files. -/
theorem cacheEntryRemove_ok (fs : Fs) (b : String)
    (hi : existsFile fs b none = true)
    (ho : existsFile fs b (some "stdout") = true)
    (he : existsFile fs b (some "stderr") = true) :
    cacheEntryRemove fs b =
      (dropFile (dropFile (dropFile fs b none) b (some "stdout")) b
        (some "stderr"), .ok ()) := by
  unfold cacheEntryRemove removeFileOp
  rw [if_pos hi]
  dsimp only
  rw [if_pos (by rw [existsFile_dropFile_ne fs b (some "stdout") b none (by simp)]; exact ho)]
  dsimp only
  rw [if_pos ?_]
  rw [existsFile_dropFile_ne _ b (some "stderr") b (some "stdout") (by simp),
    existsFile_dropFile_ne _ b (some "stderr") b none (by simp)]
  exact he

/-- C7: for every cache entry that exists, whose info reads back valid,
and whose two blob files are present, a plain (no-flag) run with a
non-empty command replays: it copies the entire stdout cache file to
standard output and the entire stderr cache file to standard error,
byte-for-byte with no transformation, terminates the program with the
stored exit code, spawns no child process, and leaves the cache directory
untouched. -/
theorem replay_path_copies_and_exits (cli : Cli) (now : KTime) (fs0 : Fs)
    (cb : ChildBehavior) (fuel : Nat) (info : CacheEntryInfo)
    (outBytes errBytes : List Nat) (c0 : OsStr) (crest : List OsStr)
    (hclear : cli.clear = false) (hpurge : cli.purge = false)
    (hcheck : cli.check = false) (hremove : cli.remove = false)
    (hcmd : cli.command = c0 :: crest)
    (hinfo : cacheEntryReadInfo fs0 (cacheEntryId cli.command) = .ok info)
    (hvalid : info.valid now = true)
    (hout : cacheEntryReadBlob fs0 (cacheEntryId cli.command) "stdout" = .ok outBytes)
    (herr : cacheEntryReadBlob fs0 (cacheEntryId cli.command) "stderr" = .ok errBytes) :
    mainRun cli now (some fs0) cb fuel =
      ⟨some (.ok (some info.exit_code)), some fs0, outBytes, errBytes, false, fs0⟩ := by
  rw [hcmd] at hinfo hout herr
  unfold mainRun
  rw [if_neg (by simp [hclear]), if_neg (by simp [hpurge])]
  dsimp only [Option.getD]
  rw [if_neg (by simp [hcheck]), if_neg (by simp [hremove]), hcmd]
  dsimp only
  rw [hinfo]
  dsimp only
  rw [if_pos hvalid]
  dsimp only
  rw [if_pos hvalid, hout]
  dsimp only
  rw [herr]

/-- Witness for C7: replaying the concrete valid entry copies the cached
bytes verbatim and exits with the stored code 5 without spawning. -/
theorem replay_path_copies_and_exits_witness :
    mainRun witnessCli ⟨0, 0⟩ (some witnessFs) sigChild 1 =
      ⟨some (.ok (some 5)), some witnessFs, [7, 8], [9], false, witnessFs⟩ :=
  replay_path_copies_and_exits witnessCli ⟨0, 0⟩ witnessFs sigChild 1
    ⟨[[0x61]], none, 5⟩ [7, 8] [9] [0x61] []
    rfl rfl rfl rfl rfl rfl rfl rfl rfl

theorem mainExec_fields (fs1 : Fs) (base : String) (expiry : Option KTime)
    (cli : Cli) (cb : ChildBehavior) (fuel : Nat) :
    (mainExec fs1 base expiry cli cb fuel).spawned = true
    ∧ (mainExec fs1 base expiry cli cb fuel).fsAfterCheck = fs1 := by
  unfold mainExec
  split
  · exact ⟨rfl, rfl⟩
  · exact ⟨rfl, rfl⟩
  · split
    · dsimp only
      split
      · exact ⟨rfl, rfl⟩
      · exact ⟨rfl, rfl⟩
    · dsimp only
      split
      · exact ⟨rfl, rfl⟩
      · exact ⟨rfl, rfl⟩

/-- C10: on a plain run (no check/remove/clear/purge flag, non-empty
command), whenever `read_info` succeeds but the entry is not valid at
`now` (and the entry's blob files are present), the program removes all
three of the entry's cache files before spawning the command: after the
invalidation step the info file and both blobs are gone, and the run
proceeds to spawn (never replaying the expired entry). -/
theorem expired_entry_removed_before_spawn (cli : Cli) (now : KTime)
    (fs0 : Fs) (cb : ChildBehavior) (fuel : Nat) (info : CacheEntryInfo)
    (c0 : OsStr) (crest : List OsStr)
    (hclear : cli.clear = false) (hpurge : cli.purge = false)
    (hcheck : cli.check = false) (hremove : cli.remove = false)
    (hcmd : cli.command = c0 :: crest)
    (hinfo : cacheEntryReadInfo fs0 (cacheEntryId cli.command) = .ok info)
    (hinvalid : info.valid now = false)
    (ho : existsFile fs0 (cacheEntryId cli.command) (some "stdout") = true)
    (he : existsFile fs0 (cacheEntryId cli.command) (some "stderr") = true) :
    (mainRun cli now (some fs0) cb fuel).spawned = true
    ∧ existsFile (mainRun cli now (some fs0) cb fuel).fsAfterCheck
        (cacheEntryId cli.command) none = false
    ∧ existsFile (mainRun cli now (some fs0) cb fuel).fsAfterCheck
        (cacheEntryId cli.command) (some "stdout") = false
    ∧ existsFile (mainRun cli now (some fs0) cb fuel).fsAfterCheck
        (cacheEntryId cli.command) (some "stderr") = false := by
  obtain ⟨f, hl, hd⟩ := lookup_readInfo fs0 (cacheEntryId cli.command) info hinfo
  have hi : existsFile fs0 (cacheEntryId cli.command) none = true :=
    existsFile_of_lookup fs0 (cacheEntryId cli.command) none f hl
  have hrem := cacheEntryRemove_ok fs0 (cacheEntryId cli.command) hi ho he
  rw [hcmd] at hinfo hrem hi ho he
  have hmain : mainRun cli now (some fs0) cb fuel =
      mainExec
        (dropFile (dropFile (dropFile fs0 (cacheEntryId (c0 :: crest)) none)
          (cacheEntryId (c0 :: crest)) (some "stdout"))
          (cacheEntryId (c0 :: crest)) (some "stderr"))
        (cacheEntryId (c0 :: crest)) (cli.expiry.or cli.duration) cli cb fuel := by
    unfold mainRun
    rw [if_neg (by simp [hclear]), if_neg (by simp [hpurge])]
    dsimp only [Option.getD]
    rw [if_neg (by simp [hcheck]), if_neg (by simp [hremove]), hcmd]
    dsimp only
    rw [hinfo]
    dsimp only
    rw [if_neg (by simp [hinvalid]), hrem]
  obtain ⟨hsp, hfs⟩ := mainExec_fields
    (dropFile (dropFile (dropFile fs0 (cacheEntryId (c0 :: crest)) none)
      (cacheEntryId (c0 :: crest)) (some "stdout"))
      (cacheEntryId (c0 :: crest)) (some "stderr"))
    (cacheEntryId (c0 :: crest)) (cli.expiry.or cli.duration) cli cb fuel
  rw [hcmd, hmain, hfs]
  refine ⟨hsp, ?_, ?_, ?_⟩
  · rw [existsFile_dropFile_ne _ _ none _ (some "stderr") (by simp),
      existsFile_dropFile_ne _ _ none _ (some "stdout") (by simp),
      existsFile_dropFile_self]
  · rw [existsFile_dropFile_ne _ _ (some "stdout") _ (some "stderr") (by simp),
      existsFile_dropFile_self]
  · rw [existsFile_dropFile_self]

/-- Witness for C10: the concrete expired entry is fully removed before
the spawn of the concrete run. -/
theorem expired_entry_removed_before_spawn_witness :
    (mainRun witnessCli ⟨5, 0⟩ (some witnessExpiredFs) sigChild 3).spawned = true
    ∧ existsFile (mainRun witnessCli ⟨5, 0⟩ (some witnessExpiredFs) sigChild 3).fsAfterCheck
        (cacheEntryId witnessCli.command) none = false
    ∧ existsFile (mainRun witnessCli ⟨5, 0⟩ (some witnessExpiredFs) sigChild 3).fsAfterCheck
        (cacheEntryId witnessCli.command) (some "stdout") = false
    ∧ existsFile (mainRun witnessCli ⟨5, 0⟩ (some witnessExpiredFs) sigChild 3).fsAfterCheck
        (cacheEntryId witnessCli.command) (some "stderr") = false :=
  expired_entry_removed_before_spawn witnessCli ⟨5, 0⟩ witnessExpiredFs sigChild 3
    ⟨[[0x61]], some ⟨1, 0⟩, 0⟩ [0x61] []
    rfl rfl rfl rfl rfl rfl (by decide) (by decide) (by decide)

/-- C2 fails on the code.  On a fresh run (no pre-existing entry) whose
child terminates without an observable exit code, the `else` branch calls
`CacheEntry::remove`, which unlinks the info file first; since no info
record was ever written, that first `fs::remove_file` fails with
`NotFound`, the `?` aborts `main` with that error, and the `.stdout` and
`.stderr` cache files are left on disk — the entry is not torn down and
the branch is fatal.  Concretely: the run below ends in the `NotFound`
error, both blob files survive (the stdout blob still holding the captured
bytes), no info record exists, and a child was spawned. -/
theorem signal_exit_no_teardown :
    (mainRun witnessCli ⟨0, 0⟩ (some []) sigChild 3).result =
      some (.error .notFound)
    ∧ existsFile ((mainRun witnessCli ⟨0, 0⟩ (some []) sigChild 3).cacheDir.getD [])
        (cacheEntryId witnessCli.command) (some "stdout") = true
    ∧ existsFile ((mainRun witnessCli ⟨0, 0⟩ (some []) sigChild 3).cacheDir.getD [])
        (cacheEntryId witnessCli.command) (some "stderr") = true
    ∧ existsFile ((mainRun witnessCli ⟨0, 0⟩ (some []) sigChild 3).cacheDir.getD [])
        (cacheEntryId witnessCli.command) none = false
    ∧ (mainRun witnessCli ⟨0, 0⟩ (some []) sigChild 3).termOut = [5]
    ∧ (mainRun witnessCli ⟨0, 0⟩ (some []) sigChild 3).spawned = true :=
  ⟨rfl, by decide, by decide, by decide, rfl, rfl⟩

theorem bool_remove_combine (a c n so se : Bool) :
    (!(c && se) && (!(c && so) && (!(c && n) && !(a && (n || so || se))))) =
      !((a || c) && (n || so || se)) := by
  cases a <;> cases c <;> cases n <;> cases so <;> cases se <;> rfl

theorem bool_expired_cons (E a T c : Bool) :
    (!(E && T) && !((a || c) && T)) = (!((c || E) && T) && !(a && T)) := by
  cases E <;> cases a <;> cases T <;> cases c <;> rfl

theorem distinctKeys_nodup (fs : Fs) (h : DistinctKeys fs) : fs.Nodup := by
  refine h.imp ?_
  intro a b hab heq
  exact hab (by rw [heq]; exact ⟨rfl, rfl⟩)

theorem distinct_unique (fs : Fs) (hnd : DistinctKeys fs) (e : FsFile)
    (he : e ∈ fs) (f : FsFile) (hf : f ∈ fs) (hb : f.base = e.base)
    (hx : f.ext = e.ext) : f = e := by
  by_contra hne
  have hsym : Symmetric (fun f g : FsFile => ¬(f.base = g.base ∧ f.ext = g.ext)) :=
    fun a b hab hp => hab ⟨hp.1.symm, hp.2.symm⟩
  exact List.Pairwise.forall hsym hnd hf he hne ⟨hb, hx⟩

theorem find_unique (fs : Fs) (b : String) (x : Option String) (e : FsFile)
    (huniq : ∀ f ∈ fs, f.base = b → f.ext = x → f = e)
    (hmem : e ∈ fs) (hkb : e.base = b) (hkx : e.ext = x) :
    fs.find? (keyMatch b x) = some e := by
  induction fs with
  | nil => exact absurd hmem (List.not_mem_nil e)
  | cons f fs ih =>
    by_cases hk : keyMatch b x f = true
    · have hfe : f = e := by
        simp only [keyMatch, Bool.and_eq_true, beq_iff_eq] at hk
        exact huniq f (by simp) hk.1 hk.2
      rw [List.find?_cons_of_pos _ hk, hfe]
    · have hfe : f ≠ e := fun h => hk (by subst h; simp [keyMatch, hkb, hkx])
      have hmem1 : e ∈ fs := by
        rcases List.mem_cons.mp hmem with h | h
        · exact absurd h.symm hfe
        · exact h
      rw [List.find?_cons_of_neg _ hk]
      exact ih (fun g hg hgb hgx => huniq g (by simp [hg]) hgb hgx) hmem1

theorem lookupFile_filter_unique (fs0 : Fs) (hnd : DistinctKeys fs0)
    (p : FsFile → Bool) (e : FsFile) (he : e ∈ fs0) (hp : p e = true)
    (b : String) (x : Option String) (hkb : e.base = b) (hkx : e.ext = x) :
    lookupFile (fs0.filter p) b x = some e := by
  unfold lookupFile
  refine find_unique _ b x e (fun f hf hb1 hx1 => ?_)
    (List.mem_filter.mpr ⟨he, hp⟩) hkb hkx
  exact distinct_unique fs0 hnd e he f (List.mem_filter.mp hf).1
    (hb1.trans hkb.symm) (hx1.trans hkx.symm)

theorem dropFile_filter (fs : Fs) (p : FsFile → Bool) (b : String)
    (x : Option String) :
    dropFile (fs.filter p) b x = fs.filter (fun f => !keyMatch b x f && p f) := by
  unfold dropFile
  rw [List.filter_filter]

theorem drop_triple_pointwise (rB : String → Bool) (b : String) (f : FsFile) :
    (!keyMatch b (some "stderr") f && (!keyMatch b (some "stdout") f &&
      (!keyMatch b none f && !(rB f.base && tripleExt f.ext)))) =
      !((rB f.base || f.base == b) && tripleExt f.ext) := by
  unfold keyMatch tripleExt
  exact bool_remove_combine (rB f.base) (f.base == b) (f.ext == none)
    (f.ext == some "stdout") (f.ext == some "stderr")

theorem removeFileOp_subset (fs : Fs) (b : String) (x : Option String) :
    ∀ f ∈ (removeFileOp fs b x).1, f ∈ fs := by
  unfold removeFileOp
  by_cases h : existsFile fs b x = true
  · rw [if_pos h]
    intro f hf
    unfold dropFile at hf
    exact (List.mem_filter.mp hf).1
  · rw [if_neg h]
    intro f hf
    exact hf

theorem cacheEntryRemove_subset (fs : Fs) (b : String) :
    ∀ f ∈ (cacheEntryRemove fs b).1, f ∈ fs := by
  unfold cacheEntryRemove
  rcases h1 : removeFileOp fs b none with ⟨fs1, r1⟩
  have hs1 : ∀ f ∈ fs1, f ∈ fs := fun f hf =>
    removeFileOp_subset fs b none f (by rw [h1]; exact hf)
  cases r1 with
  | error e => exact hs1
  | ok u =>
    dsimp only
    rcases h2 : removeFileOp fs1 b (some "stdout") with ⟨fs2, r2⟩
    have hs2 : ∀ f ∈ fs2, f ∈ fs1 := fun f hf =>
      removeFileOp_subset fs1 b (some "stdout") f (by rw [h2]; exact hf)
    cases r2 with
    | error e => exact fun f hf => hs1 f (hs2 f hf)
    | ok u2 =>
      dsimp only
      intro f hf
      exact hs1 f (hs2 f (removeFileOp_subset fs2 b (some "stderr") f hf))

theorem purgeGo_filter (now : KTime) (fs0 : Fs) (hnd : DistinctKeys fs0)
    (hcomp : ∀ e ∈ fs0, isInfoEntry e = true →
      isExpiredContent e.content now = true →
      (∃ f ∈ fs0, f.base = e.base ∧ f.ext = some "stdout") ∧
      (∃ f ∈ fs0, f.base = e.base ∧ f.ext = some "stderr")) :
    ∀ es, List.Sublist es fs0 →
      ∀ rB : String → Bool,
      (∀ e ∈ es, isInfoEntry e = true → rB e.base = false) →
      (∀ e ∈ es, isInfoEntry e = true → (decodeInfo e.content).isSome = true) →
      purgeGo now (fs0.filter (fun f => !(rB f.base && tripleExt f.ext))) es =
        ((fs0.filter (fun f => !(rB f.base && tripleExt f.ext))).filter
          (fun f => !(expiredIn es now f.base && tripleExt f.ext)), .ok ()) := by
  intro es
  induction es with
  | nil =>
    intro _ rB _ _
    have hp : ∀ f ∈ fs0.filter (fun f => !(rB f.base && tripleExt f.ext)),
        (fun f => !(expiredIn ([] : List FsFile) now f.base && tripleExt f.ext)) f
          = (fun _ => true) f := by
      intro f _
      simp [expiredIn]
    rw [List.filter_congr hp, List.filter_true]
    rfl
  | cons e0 rest ih =>
    intro hsub rB hrB hdec
    have hsubrest : List.Sublist rest fs0 :=
      (List.sublist_cons_self e0 rest).trans hsub
    have he0 : e0 ∈ fs0 := hsub.subset (by simp)
    unfold purgeGo
    by_cases hguard : isInfoEntry e0 = true
    · rw [if_pos hguard]
      have he0ext : e0.ext = none := by
        have hg := hguard
        simp only [isInfoEntry, Bool.and_eq_true, Option.isNone_iff_eq_none] at hg
        exact hg.2
      have hpe0 : (fun f => !(rB f.base && tripleExt f.ext)) e0 = true := by
        have h0 := hrB e0 (by simp) hguard
        simp [h0]
      have hlook : lookupFile
          (fs0.filter (fun f => !(rB f.base && tripleExt f.ext))) e0.base none
            = some e0 :=
        lookupFile_filter_unique fs0 hnd _ e0 he0 hpe0 e0.base none rfl he0ext
      obtain ⟨info, hinfo⟩ :=
        Option.isSome_iff_exists.mp (hdec e0 (by simp) hguard)
      have hread : cacheEntryReadInfo
          (fs0.filter (fun f => !(rB f.base && tripleExt f.ext))) e0.base
            = .ok info := by
        unfold cacheEntryReadInfo
        rw [hlook]
        dsimp only
        rw [hinfo]
      rw [hread]
      dsimp only
      by_cases hval : info.valid now = true
      · rw [if_pos hval]
        have hexp : isExpiredContent e0.content now = false := by
          unfold isExpiredContent
          rw [hinfo]
          simp [hval]
        rw [ih hsubrest rB (fun e he h => hrB e (by simp [he]) h)
          (fun e he h => hdec e (by simp [he]) h)]
        have hp : ∀ f ∈ fs0.filter (fun f => !(rB f.base && tripleExt f.ext)),
            (fun f => !(expiredIn rest now f.base && tripleExt f.ext)) f
              = (fun f => !(expiredIn (e0 :: rest) now f.base && tripleExt f.ext)) f := by
          intro f _
          have hc : expiredIn (e0 :: rest) now f.base = expiredIn rest now f.base := by
            unfold expiredIn
            rw [List.any_cons]
            simp [hexp]
          dsimp only
          rw [hc]
        rw [List.filter_congr hp]
      · rw [if_neg hval]
        have hexp : isExpiredContent e0.content now = true := by
          unfold isExpiredContent
          rw [hinfo]
          simp only [Bool.not_eq_true', Bool.not_eq_true] at hval ⊢
          exact hval
        obtain ⟨⟨fso, hfso, hfsob, hfsox⟩, ⟨fse, hfse, hfseb, hfsex⟩⟩ :=
          hcomp e0 he0 hguard hexp
        have hrB0 : rB e0.base = false := hrB e0 (by simp) hguard
        have hso : existsFile (fs0.filter (fun f => !(rB f.base && tripleExt f.ext)))
            e0.base (some "stdout") = true := by
          unfold existsFile
          rw [List.any_eq_true]
          refine ⟨fso, List.mem_filter.mpr ⟨hfso, ?_⟩, by simp [keyMatch, hfsob, hfsox]⟩
          rw [hfsob, hrB0]
          simp
        have hse : existsFile (fs0.filter (fun f => !(rB f.base && tripleExt f.ext)))
            e0.base (some "stderr") = true := by
          unfold existsFile
          rw [List.any_eq_true]
          refine ⟨fse, List.mem_filter.mpr ⟨hfse, ?_⟩, by simp [keyMatch, hfseb, hfsex]⟩
          rw [hfseb, hrB0]
          simp
        have hi : existsFile (fs0.filter (fun f => !(rB f.base && tripleExt f.ext)))
            e0.base none = true :=
          existsFile_of_lookup _ _ _ _ hlook
        rw [cacheEntryRemove_ok _ e0.base hi hso hse]
        dsimp only
        have hdrop : dropFile (dropFile (dropFile
            (fs0.filter (fun f => !(rB f.base && tripleExt f.ext))) e0.base none)
              e0.base (some "stdout")) e0.base (some "stderr")
            = fs0.filter (fun f =>
                !((rB f.base || f.base == e0.base) && tripleExt f.ext)) := by
          rw [dropFile_filter, dropFile_filter, dropFile_filter]
          exact List.filter_congr (fun f _ => drop_triple_pointwise rB e0.base f)
        rw [hdrop]
        have hrB1 : ∀ e ∈ rest, isInfoEntry e = true →
            (rB e.base || e.base == e0.base) = false := by
          intro e he hIe
          have h1 : rB e.base = false := hrB e (by simp [he]) hIe
          have hne : e.base ≠ e0.base := by
            intro hbeq
            have hext : e.ext = none := by
              have hg := hIe
              simp only [isInfoEntry, Bool.and_eq_true, Option.isNone_iff_eq_none] at hg
              exact hg.2
            have hee : e = e0 := distinct_unique fs0 hnd e0 he0 e
              (hsubrest.subset he) hbeq (hext.trans he0ext.symm)
            have hnd1 : (e0 :: rest).Nodup := hsub.nodup (distinctKeys_nodup fs0 hnd)
            exact (List.nodup_cons.mp hnd1).1 (hee ▸ he)
          rw [h1, beq_eq_false_iff_ne.mpr hne]
          rfl
        have hstep := ih hsubrest (fun b => rB b || b == e0.base) hrB1
          (fun e he h => hdec e (by simp [he]) h)
        rw [hstep]
        refine Prod.ext ?_ rfl
        dsimp only
        rw [List.filter_filter, List.filter_filter]
        refine List.filter_congr (fun f _ => ?_)
        have hcons : expiredIn (e0 :: rest) now f.base
            = ((f.base == e0.base) || expiredIn rest now f.base) := by
          unfold expiredIn
          rw [List.any_cons]
          by_cases hb : f.base = e0.base
          · simp [hguard, hexp, hb]
          · simp [hguard, hexp, beq_eq_false_iff_ne.mpr hb,
              beq_eq_false_iff_ne.mpr (Ne.symm hb)]
        rw [hcons]
        exact bool_expired_cons (expiredIn rest now f.base) (rB f.base)
          (tripleExt f.ext) (f.base == e0.base)
    · rw [if_neg hguard]
      rw [ih hsubrest rB (fun e he h => hrB e (by simp [he]) h)
        (fun e he h => hdec e (by simp [he]) h)]
      have hg : isInfoEntry e0 = false := by
        cases h : isInfoEntry e0
        · rfl
        · exact absurd h hguard
      have hp : ∀ f ∈ fs0.filter (fun f => !(rB f.base && tripleExt f.ext)),
          (fun f => !(expiredIn rest now f.base && tripleExt f.ext)) f
            = (fun f => !(expiredIn (e0 :: rest) now f.base && tripleExt f.ext)) f := by
        intro f _
        have hc : expiredIn (e0 :: rest) now f.base = expiredIn rest now f.base := by
          unfold expiredIn
          rw [List.any_cons]
          simp [hg]
        dsimp only
        rw [hc]
      rw [List.filter_congr hp]

theorem purgeGo_bad_not_ok (now : KTime) (fs0 : Fs) (hnd : DistinctKeys fs0) :
    ∀ es FS, List.Sublist es fs0 → (∀ f ∈ FS, f ∈ fs0) →
      (∃ e ∈ es, isInfoEntry e = true ∧ decodeInfo e.content = none) →
      (purgeGo now FS es).2 ≠ .ok () := by
  intro es
  induction es with
  | nil =>
    intro FS _ _ hbad
    obtain ⟨e, he, -⟩ := hbad
    exact absurd he (List.not_mem_nil e)
  | cons e0 rest ih =>
    intro FS hsub hFSsub hbad
    obtain ⟨e, he, hIe, hbadc⟩ := hbad
    have hsubrest : List.Sublist rest fs0 :=
      (List.sublist_cons_self e0 rest).trans hsub
    unfold purgeGo
    by_cases hguard : isInfoEntry e0 = true
    · rw [if_pos hguard]
      cases hread : cacheEntryReadInfo FS e0.base with
      | error er =>
        dsimp only
        exact fun h => Except.noConfusion h
      | ok info =>
        dsimp only
        rcases List.mem_cons.mp he with rfl | hrest
        · exfalso
          obtain ⟨f, hlf, hdf⟩ := lookup_readInfo FS e.base info hread
          unfold lookupFile at hlf
          have hfF : f ∈ FS := List.mem_of_find?_eq_some hlf
          have hk := List.find?_some hlf
          simp only [keyMatch, Bool.and_eq_true, beq_iff_eq] at hk
          have heext : e.ext = none := by
            have hg := hIe
            simp only [isInfoEntry, Bool.and_eq_true, Option.isNone_iff_eq_none] at hg
            exact hg.2
          have hefs : e ∈ fs0 := hsub.subset (by simp)
          have hfe : f = e := distinct_unique fs0 hnd e hefs f (hFSsub f hfF)
            hk.1 (by rw [hk.2, heext])
          rw [hfe, hbadc] at hdf
          exact Option.noConfusion hdf
        · by_cases hval : info.valid now = true
          · rw [if_pos hval]
            exact ih FS hsubrest hFSsub ⟨e, hrest, hIe, hbadc⟩
          · rw [if_neg hval]
            rcases hrem : cacheEntryRemove FS e0.base with ⟨FS1, r⟩
            cases r with
            | error er =>
              dsimp only
              exact fun h => Except.noConfusion h
            | ok u =>
              dsimp only
              refine ih FS1 hsubrest (fun f hf => hFSsub f ?_) ⟨e, hrest, hIe, hbadc⟩
              have hss := cacheEntryRemove_subset FS e0.base f
              rw [hrem] at hss
              exact hss hf
    · rw [if_neg hguard]
      rcases List.mem_cons.mp he with rfl | hrest
      · exact absurd hIe hguard
      · exact ih FS hsubrest hFSsub ⟨e, hrest, hIe, hbadc⟩

/-- C6: `purge` examines exactly the immediate directory items that are
plain files with no extension, removes all three files of every such
entry whose info record reads back invalid, and leaves every other file —
in particular every valid entry's three files — fully intact; it fails
with the cache-directory-not-found error when the cache directory does
not exist; and any scanned entry whose info record fails to decode makes
the whole operation abort with an error.  The directory listing is
assumed to have distinct (base, extension) names, the success conjunct
additionally that every info record decodes and every expired entry's two
companion files are present. -/
theorem purge_spec (now : KTime) (fs : Fs) (hnd : DistinctKeys fs) :
    purgeOp now none = (none, .error .cacheDirNotFound)
    ∧ ((∀ e ∈ fs, isInfoEntry e = true → (decodeInfo e.content).isSome = true) →
       (∀ e ∈ fs, isInfoEntry e = true → isExpiredContent e.content now = true →
         (∃ f ∈ fs, f.base = e.base ∧ f.ext = some "stdout") ∧
         (∃ f ∈ fs, f.base = e.base ∧ f.ext = some "stderr")) →
       purgeOp now (some fs) =
         (some (fs.filter (fun f => !(expiredIn fs now f.base && tripleExt f.ext))),
           .ok ()))
    ∧ ((∃ e ∈ fs, isInfoEntry e = true ∧ decodeInfo e.content = none) →
       (purgeOp now (some fs)).2 ≠ .ok ()) := by
  refine ⟨rfl, ?_, ?_⟩
  · intro hdec hcomp
    have h := purgeGo_filter now fs hnd hcomp fs (List.Sublist.refl fs)
      (fun _ => false) (fun e _ _ => rfl) (fun e he hie => hdec e he hie)
    have hfs : fs.filter (fun f => !((fun _ : String => false) f.base
        && tripleExt f.ext)) = fs := by
      have : ∀ f ∈ fs, (fun f : FsFile => !((fun _ : String => false) f.base
          && tripleExt f.ext)) f = (fun _ => true) f := by
        intro f _
        simp
      rw [List.filter_congr this, List.filter_true]
    rw [hfs] at h
    unfold purgeOp
    dsimp only
    rw [h]
  · intro hbad
    unfold purgeOp
    dsimp only
    rcases hp : purgeGo now fs fs with ⟨fs1, r⟩
    have hres := purgeGo_bad_not_ok now fs hnd fs fs (List.Sublist.refl fs)
      (fun f hf => hf) hbad
    rw [hp] at hres
    exact hres

/-- Witness for C6 on a directory with one valid and one expired entry:
purge succeeds and the result is the directory filtered of exactly the
expired entry's three files. -/
theorem purge_spec_witness :
    purgeOp ⟨5, 0⟩ (some purgeWitnessFs) =
      (some (purgeWitnessFs.filter
        (fun f => !(expiredIn purgeWitnessFs ⟨5, 0⟩ f.base && tripleExt f.ext))),
        .ok ()) :=
  (purge_spec ⟨5, 0⟩ purgeWitnessFs
    (by unfold DistinctKeys; decide)).2.1 (by decide) (by decide)
